import Mathlib

/-!
Verification of the clinic record-keeping backend (`app.py`): the
underscore-blank template filler, the medical-certificate paragraph scan,
the visit-date formatter, and the patient/visit CRUD handlers, modelled as
pure Lean functions over explicit state.
-/

namespace Clinic

/-! ### Character and string helpers

Python `str.lower`, `str.strip`, substring tests and `startswith` are
modelled over the character list of a `String` (ASCII-faithful, which is
all the keyword matching in the source exercises). -/

/-- ASCII lower-casing of one character, as Python `str.lower` acts on ASCII. -/
def lowerChar (c : Char) : Char :=
  if c.toNat ≥ 65 ∧ c.toNat ≤ 90 then Char.ofNat (c.toNat + 32) else c

/-- Whitespace test used by Python `str.strip`. -/
def isWS (c : Char) : Bool :=
  c == ' ' || c == '\t' || c == '\n' || c == '\r' || c == Char.ofNat 11 || c == Char.ofNat 12

/-- Underscore test: the characters matched by the pattern used in `re.split` and `re.search`. -/
def isUnd (c : Char) : Bool := c == '_'

/-- Lower-case a character list. -/
def lowList (cs : List Char) : List Char := cs.map lowerChar

/-- Strip whitespace at both ends, as Python `str.strip()`. -/
def trimChars (cs : List Char) : List Char :=
  ((cs.dropWhile isWS).reverse.dropWhile isWS).reverse

/-- Does the list `cs` begin with the pattern `pat`? (Python `startswith`.) -/
def startsWithChars : List Char → List Char → Bool
  | [], _ => true
  | _ :: _, [] => false
  | a :: as, b :: bs => a == b && startsWithChars as bs

/-- Does `hay` contain `needle` as a contiguous sublist? (Python `in` on strings.) -/
def containsChars (hay needle : List Char) : Bool :=
  match hay with
  | [] => needle.isEmpty
  | _ :: t => startsWithChars needle hay || containsChars t needle

/-- Python `"needle" in hay.lower()`-style test lifted to `String`. -/
def strContainsSub (hay needle : String) : Bool := containsChars hay.data needle.data

/-- Python `str.strip()` lifted to `String`. -/
def strTrim (s : String) : String := ⟨trimChars s.data⟩

/-- Does the text contain an underscore run, i.e. does `re.search(r'_+', txt)` succeed?
A run of one or more underscores exists iff a single underscore occurs. -/
def hasUnd (s : String) : Bool := s.data.any isUnd

/-! ### Underscore-group replacement (`replace_underscore_groups_in_paragraph`)

`re.split(r'(_+)', text)` decomposes `text` into maximal underscore runs and
the (possibly empty) segments between them.  The empty segments never
full-match `_+`, are appended verbatim, and contribute nothing to the joined
result, so the embedding groups the text into the nonempty maximal runs
directly. -/

/-- Group a character list into maximal runs of underscore / non-underscore
characters (the nonempty parts produced by `re.split(r'(_+)', ·)`). -/
def groupUnd : List Char → List (List Char)
  | [] => []
  | c :: cs =>
    match groupUnd cs with
    | [] => [[c]]
    | [] :: gs => [c] :: [] :: gs
    | (d :: g) :: gs =>
      if isUnd c == isUnd d then (c :: d :: g) :: gs else [c] :: (d :: g) :: gs

/-- Walk the parts left to right: a part that full-matches `_+` is replaced by
the next supplied value (Python `str(replacements[repl_idx] or "")`, so `None`
becomes the empty string) while values remain, and is kept verbatim
otherwise; other parts are kept verbatim. -/
def substGroups : List (List Char) → List (Option String) → List Char
  | [], _ => []
  | g :: gs, repls =>
    if g.all isUnd && !g.isEmpty then
      match repls with
      | [] => g ++ substGroups gs []
      | r :: rs => (r.getD "").data ++ substGroups gs rs
    else g ++ substGroups gs repls

/-- The new paragraph text computed by `replace_underscore_groups_in_paragraph`. -/
def replaceUnderscoreGroups (text : String) (repls : List (Option String)) : String :=
  ⟨substGroups (groupUnd text.data) repls⟩

/-- A docx text run: its text and its character formatting. -/
structure Run where
  text : String
  fontName : String
  fontSize : Nat
deriving DecidableEq, Repr

/-- A docx paragraph is a sequence of runs. -/
structure Paragraph where
  runs : List Run
deriving DecidableEq, Repr

/-- Concatenated characters of a run list. -/
def textOfRuns : List Run → List Char
  | [] => []
  | r :: rs => r.text.data ++ textOfRuns rs

/-- A paragraph's text is the concatenation of its runs' texts (python-docx `paragraph.text`). -/
def Paragraph.text (p : Paragraph) : String := ⟨textOfRuns p.runs⟩

/-- Model of `replace_underscore_groups_in_paragraph`: compute the new text
from the paragraph's text, blank out every existing run, and append one new
run holding the whole new text, styled Cambria 14. -/
def replace_underscore_groups_in_paragraph (p : Paragraph) (repls : List (Option String)) : Paragraph :=
  ⟨(p.runs.map fun r => { r with text := "" }) ++
    [{ text := replaceUnderscoreGroups p.text repls, fontName := "Cambria", fontSize := 14 }]⟩

/-! ### Specification-side formulation of underscore replacement

The spec reads: split the paragraph's text on runs of one or more
underscores, substitute each run in left-to-right order with the
corresponding supplied value (values are consumed in order; runs beyond the
supplied values are left untouched), and reconstruct the full string.  Here
the maximal runs are carved off from the left by `takeWhile`/`dropWhile`,
independently of the right-fold grouping used by the source model. -/

/-- Split into maximal runs of equal underscore-ness, from the left. -/
def specSplitRuns : List Char → List (List Char)
  | [] => []
  | c :: cs =>
    (c :: cs.takeWhile (fun x => isUnd x == isUnd c)) ::
      specSplitRuns (cs.dropWhile (fun x => isUnd x == isUnd c))
termination_by l => l.length
decreasing_by
  simp only [List.length_cons]
  exact Nat.lt_succ_of_le (List.dropWhile_sublist _).length_le

/-- Substitute underscore runs left to right with the supplied values. -/
def specSubstRuns : List (List Char) → List String → List Char
  | [], _ => []
  | g :: gs, vals =>
    if g.all isUnd && !g.isEmpty then
      match vals with
      | [] => g ++ specSubstRuns gs []
      | v :: vs => v.data ++ specSubstRuns gs vs
    else g ++ specSubstRuns gs vals

/-- The reconstructed string, as the spec describes it. -/
def specUnderscoreReplace (text : String) (vals : List String) : String :=
  ⟨specSubstRuns (specSplitRuns text.data) vals⟩

/-! ### Visit-date formatting (`format_date`)

`datetime.strptime(s, "%Y-%m-%d")` accepts exactly four year digits, one or
two month digits (01-12 or 1-9), one or two day digits, validated against
the month length (leap years included) and the year range 1-9999;
`strftime("%B %d, %Y")` renders the full month name, a zero-padded
two-digit day and a zero-padded four-digit year. -/

/-- A calendar date. -/
structure Date where
  year : Nat
  month : Nat
  day : Nat
deriving DecidableEq, Repr

/-- Gregorian leap-year test. -/
def isLeap (y : Nat) : Bool := y % 4 == 0 && (y % 100 != 0 || y % 400 == 0)

/-- Number of days in a month. -/
def daysInMonth (y m : Nat) : Nat :=
  if m == 2 then (if isLeap y then 29 else 28)
  else if m == 4 || m == 6 || m == 9 || m == 11 then 30
  else 31

/-- Full English month name (`strftime("%B")`). -/
def monthName : Nat → String
  | 1 => "January" | 2 => "February" | 3 => "March" | 4 => "April"
  | 5 => "May" | 6 => "June" | 7 => "July" | 8 => "August"
  | 9 => "September" | 10 => "October" | 11 => "November" | 12 => "December"
  | _ => ""

/-- Decimal digit character. -/
def digitChar (n : Nat) : Char := Char.ofNat (48 + n % 10)

/-- Two-digit zero-padded number (`strftime("%d")`). -/
def pad2 (n : Nat) : String := ⟨[digitChar (n / 10), digitChar n]⟩

/-- Four-digit zero-padded number (`strftime("%Y")`). -/
def pad4 (n : Nat) : String := ⟨[digitChar (n / 1000), digitChar (n / 100), digitChar (n / 10), digitChar n]⟩

/-- Long-form rendering `strftime("%B %d, %Y")`. -/
def renderLong (d : Date) : String :=
  monthName d.month ++ " " ++ pad2 d.day ++ ", " ++ pad4 d.year

/-- Is every character a decimal digit (and the list nonempty)? -/
def allDigits (cs : List Char) : Bool :=
  !cs.isEmpty && cs.all fun c => 48 ≤ c.toNat && c.toNat ≤ 57

/-- Numeric value of a digit list. -/
def digitsToNat (cs : List Char) : Nat :=
  cs.foldl (fun a c => a * 10 + (c.toNat - 48)) 0

/-- Split a character list on `'-'`, keeping empty components (Python `str.split("-")`). -/
def splitOnDash : List Char → List (List Char)
  | [] => [[]]
  | c :: cs =>
    let r := splitOnDash cs
    if c == '-' then [] :: r
    else
      match r with
      | [] => [[c]]
      | g :: gs => (c :: g) :: gs

/-- Model of `datetime.strptime(s, "%Y-%m-%d")`: `some` date on success,
`none` when the string does not match or the date is invalid. -/
def parseYmd (s : String) : Option Date :=
  match splitOnDash s.data with
  | [ys, ms, ds] =>
    if allDigits ys && ys.length == 4
        && allDigits ms && ms.length ≤ 2
        && allDigits ds && ds.length ≤ 2 then
      let y := digitsToNat ys
      let m := digitsToNat ms
      let d := digitsToNat ds
      if 1 ≤ y && 1 ≤ m && m ≤ 12 && 1 ≤ d && d ≤ daysInMonth y m then
        some ⟨y, m, d⟩
      else none
    else none
  | _ => none

/-- First token of `str.split(" ")`: the characters before the first space. -/
def firstTok (s : String) : String := ⟨s.data.takeWhile fun c => !(c == ' ')⟩

/-- Model of `format_date`: `today` stands for `datetime.now()`.  An absent or
empty stored value yields today's long form; otherwise the first
space-separated token is parsed as `%Y-%m-%d` and rendered long-form on
success, while on failure the raw stored string is returned (`dt_str or ...`
can only pick the fallback when `dt_str` is falsy, which the first guard
already excluded). -/
def format_date (today : Date) (dt : Option String) : String :=
  match dt with
  | none => renderLong today
  | some s =>
    if s = "" then renderLong today
    else
      match parseYmd (firstTok s) with
      | some d => renderLong d
      | none => if s = "" then renderLong today else s

/-! ### Record store and CRUD handlers

The two SQLite tables are modelled as lists of rows plus the AUTOINCREMENT
counters; JSON request fields are `Option`-valued.  Python truthiness on the
string fields is explicit: `x or y` on an optional string picks `y` exactly
when the field is absent or empty. -/

/-- A row of the `patients` table. -/
structure PatientR where
  id : Nat
  name : String
  sex : Option String
deriving DecidableEq, Repr

/-- A row of the `visits` table. -/
structure VisitR where
  id : Nat
  patient_id : Nat
  visit_date : Option String
  age : Option Int
  address : Option String
  status : Option String
  history : Option String
  pe : Option String
  diagnosis : Option String
  management : Option String
  remarks : Option String
deriving DecidableEq, Repr

/-- The persistent store. -/
structure DB where
  patients : List PatientR
  visits : List VisitR
  nextPatientId : Nat
  nextVisitId : Nat
deriving DecidableEq, Repr

/-- Python `data.get(k) or None`: an empty string is collapsed to `None`. -/
def pyOrNone (o : Option String) : Option String :=
  match o with
  | some s => if s = "" then none else some s
  | none => none

/-- Python `data.get(k) or ""`: absent or empty becomes the empty string. -/
def pyOrEmpty (o : Option String) : String := o.getD ""

/-- Response of `POST /api/patients`. -/
inductive PatientCreateResult
  | err400 (msg : String)
  | created201 (msg : String) (pid : Nat)
deriving DecidableEq, Repr

/-- Response of the message-only endpoints. -/
inductive SimpleResult
  | err (code : Nat) (msg : String)
  | ok200 (msg : String)
deriving DecidableEq, Repr

/-- Response of `POST /api/patients/<pid>/visits`. -/
inductive AddVisitResult
  | notFound404 (msg : String)
  | ok (msg : String) (vid : Nat)
deriving DecidableEq, Repr

/-- Response of `GET /api/visits/<vid>`. -/
inductive GetVisitResult
  | notFound404 (msg : String)
  | found (v : VisitR)
deriving DecidableEq, Repr

/-- HTTP status carried by a `SimpleResult`. -/
def SimpleResult.statusCode : SimpleResult → Nat
  | .err c _ => c
  | .ok200 _ => 200

/-- Model of `create_patient` (`POST /api/patients`). -/
def create_patient (db : DB) (nameIn sexIn : Option String) : DB × PatientCreateResult :=
  let name := strTrim (nameIn.getD "")
  if name = "" then (db, .err400 "Name is required")
  else
    let sex := pyOrNone sexIn
    ({ db with
        patients := db.patients ++ [{ id := db.nextPatientId, name := name, sex := sex }],
        nextPatientId := db.nextPatientId + 1 },
      .created201 "Patient created" db.nextPatientId)

/-- Model of `update_patient` (`PUT /api/patients/<pid>`): the SQL `UPDATE`
rewrites every row whose id matches, with no existence check. -/
def update_patient (db : DB) (pid : Nat) (nameIn sexIn : Option String) : DB × SimpleResult :=
  let name := strTrim (nameIn.getD "")
  if name = "" then (db, .err 400 "Name is required")
  else
    let sex := pyOrNone sexIn
    ({ db with
        patients := db.patients.map fun p =>
          if p.id == pid then { p with name := name, sex := sex } else p },
      .ok200 "Patient updated")

/-- The JSON payload of a visit request. -/
structure VisitPayload where
  visit_date : Option String := none
  age : Option Int := none
  address : Option String := none
  status : Option String := none
  history : Option String := none
  pe : Option String := none
  diagnosis : Option String := none
  management : Option String := none
  remarks : Option String := none
deriving DecidableEq, Repr

/-- Model of `add_visit` (`POST /api/patients/<pid>/visits`).  `now` stands
for the column default `datetime('now','localtime')`, used when the supplied
`visit_date` is absent or empty (falsy). -/
def add_visit (db : DB) (now : String) (pid : Nat) (d : VisitPayload) : DB × AddVisitResult :=
  if db.patients.any (fun p => p.id == pid) then
    let storedDate : Option String :=
      match d.visit_date with
      | some s => if s = "" then some now else some s
      | none => some now
    let v : VisitR :=
      { id := db.nextVisitId, patient_id := pid, visit_date := storedDate,
        age := d.age, address := d.address, status := d.status,
        history := some (pyOrEmpty d.history), pe := some (pyOrEmpty d.pe),
        diagnosis := some (pyOrEmpty d.diagnosis),
        management := some (pyOrEmpty d.management),
        remarks := some (pyOrEmpty d.remarks) }
    ({ db with visits := db.visits ++ [v], nextVisitId := db.nextVisitId + 1 },
      .ok "Visit added" db.nextVisitId)
  else (db, .notFound404 "Patient not found")

/-- Model of `get_visit` (`GET /api/visits/<vid>`): first row whose id matches. -/
def get_visit (db : DB) (vid : Nat) : GetVisitResult :=
  match db.visits.find? (fun v => v.id == vid) with
  | some v => .found v
  | none => .notFound404 "Visit not found"

/-- Model of `update_visit` (`PUT /api/visits/<vid>`): after the existence
check, the SQL `UPDATE` rewrites all nine stored fields of every row whose id
matches, from the request payload alone. -/
def update_visit (db : DB) (vid : Nat) (d : VisitPayload) : DB × SimpleResult :=
  if db.visits.any (fun v => v.id == vid) then
    ({ db with
        visits := db.visits.map fun v =>
          if v.id == vid then
            { v with
                visit_date := d.visit_date, age := d.age,
                address := some (pyOrEmpty d.address),
                status := some (pyOrEmpty d.status),
                history := some (pyOrEmpty d.history),
                pe := some (pyOrEmpty d.pe),
                diagnosis := some (pyOrEmpty d.diagnosis),
                management := some (pyOrEmpty d.management),
                remarks := some (pyOrEmpty d.remarks) }
          else v },
      .ok200 "Visit updated")
  else (db, .err 404 "Visit not found")

/-! ### Certificate paragraph scan (`print_medcert`)

The loop walks the indices `0 .. n-1` of the document's paragraph list (the
list object mutates in place but its length never changes, so the snapshot
taken by `enumerate` and the re-read `doc.paragraphs[j]` agree with an array
threaded through the scan).  The `processed` set of consumed indices is
modelled as a list consulted through `memNat`, and every fill is recorded as
an event for reasoning about which rule touched which paragraph. -/

/-- The visit-derived strings handed to the template filler. -/
structure CertData where
  dateText : String
  nameWithInfo : String
  address : String
  history : String
  diagnosis : String
  remarks : String
deriving DecidableEq, Repr

/-- Which branch of the scan performed a fill. -/
inductive Rule
  | date
  | certify
  | examined
  | impressionLA
  | remarksLA
deriving DecidableEq, Repr

/-- Is the rule one of the two lookahead branches? -/
def Rule.isLookahead : Rule → Bool
  | .impressionLA => true
  | .remarksLA => true
  | _ => false

/-- One fill event: the paragraph index that was rewritten and the rule that did it. -/
structure Fill where
  idx : Nat
  rule : Rule
deriving DecidableEq, Repr

/-- Membership in the consumed-index set (`j in processed`). -/
def memNat (l : List Nat) (x : Nat) : Bool := l.any (fun a => a == x)

/-- Text of the paragraph at an index (out of range reads as an empty paragraph). -/
def paraTextAt (paras : Array Paragraph) (j : Nat) : String :=
  (paras.getD j ⟨[]⟩).text

/-- Condition of the date branch: `"date" in low and re.search(r'_+', txt)`. -/
def dateCond (txt : String) : Bool :=
  containsChars (lowList txt.data) "date".data && hasUnd txt

/-- Condition of the certify branch. -/
def certifyCond (txt : String) : Bool :=
  (containsChars (lowList txt.data) "certify that".data
    || containsChars (lowList txt.data) "this is to certify".data) && hasUnd txt

/-- Condition of the examined-due-to branch. -/
def examCond (txt : String) : Bool :=
  containsChars (lowList txt.data) "examined".data
    && containsChars (lowList txt.data) "due to".data && hasUnd txt

/-- Condition of the impression branch: `low.strip().startswith("impression")`. -/
def impCond (txt : String) : Bool :=
  startsWithChars "impression".data (trimChars (lowList txt.data))

/-- Condition of the remarks branch: `low.strip().startswith("remarks")`. -/
def remCond (txt : String) : Bool :=
  startsWithChars "remarks".data (trimChars (lowList txt.data))

/-- The lookahead loop `for j in range(idx+1, min(idx+6, len))`: starting at
`j` with `fuel` slots left in the window, skip consumed paragraphs and fill
the first one containing an underscore run with the single value `v`. -/
def lookahead (r : Rule) (v : String) (paras : Array Paragraph) (processed : List Nat) :
    Nat → Nat → Array Paragraph × List Nat × List Fill
  | _, 0 => (paras, processed, [])
  | j, fuel + 1 =>
    if j < paras.size then
      if memNat processed j then lookahead r v paras processed (j + 1) fuel
      else if hasUnd (paraTextAt paras j) then
        (paras.setD j (replace_underscore_groups_in_paragraph (paras.getD j ⟨[]⟩) [some v]),
          j :: processed, [⟨j, r⟩])
      else lookahead r v paras processed (j + 1) fuel
    else (paras, processed, [])

/-- One iteration of the scan at index `idx`: the five keyword branches in
source order, each direct branch consuming its own paragraph, the two
lookahead branches delegating to `lookahead` over the next five indices. -/
def scanStep (d : CertData) (paras : Array Paragraph) (processed : List Nat) (idx : Nat) :
    Array Paragraph × List Nat × List Fill :=
  if dateCond (paraTextAt paras idx) then
    (paras.setD idx (replace_underscore_groups_in_paragraph (paras.getD idx ⟨[]⟩)
        [some d.dateText]),
      idx :: processed, [⟨idx, .date⟩])
  else if certifyCond (paraTextAt paras idx) then
    (paras.setD idx (replace_underscore_groups_in_paragraph (paras.getD idx ⟨[]⟩)
        [some d.nameWithInfo, some d.address]),
      idx :: processed, [⟨idx, .certify⟩])
  else if examCond (paraTextAt paras idx) then
    (paras.setD idx (replace_underscore_groups_in_paragraph (paras.getD idx ⟨[]⟩)
        [some (" " ++ d.history)]),
      idx :: processed, [⟨idx, .examined⟩])
  else if impCond (paraTextAt paras idx) then
    lookahead .impressionLA d.diagnosis paras processed (idx + 1) 5
  else if remCond (paraTextAt paras idx) then
    lookahead .remarksLA d.remarks paras processed (idx + 1) 5
  else (paras, processed, [])

/-- The scan from index `idx` with `fuel` iterations left. -/
def scanAux (d : CertData) : Nat → Nat → Array Paragraph → List Nat →
    Array Paragraph × List Nat × List Fill
  | 0, _, paras, processed => (paras, processed, [])
  | fuel + 1, idx, paras, processed =>
    let s := scanStep d paras processed idx
    let rest := scanAux d fuel (idx + 1) s.1 s.2.1
    (rest.1, rest.2.1, s.2.2 ++ rest.2.2)

/-- The whole certificate scan of `print_medcert`: every paragraph index once,
in document order, starting from an empty consumed set. -/
def scan (d : CertData) (paras : Array Paragraph) : Array Paragraph × List Nat × List Fill :=
  scanAux d paras.size 0 paras []

/-- Eligibility of index `k` for a lookahead fill in the current state:
in bounds, not yet consumed, and containing an underscore run. -/
def elig (paras : Array Paragraph) (processed : List Nat) (k : Nat) : Prop :=
  k < paras.size ∧ memNat processed k = false ∧ hasUnd (paraTextAt paras k) = true

/-- Eligibility within the lookahead window of the paragraph at `idx`. -/
def windowElig (paras : Array Paragraph) (processed : List Nat) (idx k : Nat) : Prop :=
  idx + 1 ≤ k ∧ k < idx + 1 + 5 ∧ elig paras processed k

instance (paras : Array Paragraph) (processed : List Nat) (k : Nat) :
    Decidable (elig paras processed k) := by
  unfold elig; infer_instance

instance (paras : Array Paragraph) (processed : List Nat) (idx k : Nat) :
    Decidable (windowElig paras processed idx k) := by
  unfold windowElig; infer_instance

/-! ### Lemmas: trimming -/

lemma trimChars_eq_nil_iff (cs : List Char) : trimChars cs = [] ↔ cs.all isWS = true := by
  unfold trimChars
  constructor
  · intro h
    have h1 : (cs.dropWhile isWS).reverse.dropWhile isWS = [] :=
      List.reverse_eq_nil_iff.mp h
    have h2 : ∀ x ∈ cs.dropWhile isWS, isWS x := by
      intro x hx
      exact (List.dropWhile_eq_nil_iff.mp h1) x (List.mem_reverse.mpr hx)
    rw [List.all_eq_true]
    intro x hx
    rw [← List.takeWhile_append_dropWhile (p := isWS) (l := cs)] at hx
    rcases List.mem_append.mp hx with h | h
    · exact List.mem_takeWhile_imp h
    · exact h2 x h
  · intro h
    have h1 : cs.dropWhile isWS = [] :=
      List.dropWhile_eq_nil_iff.mpr fun x hx => (List.all_eq_true.mp h) x hx
    rw [h1]
    rfl

lemma strTrim_eq_empty_iff (s : String) : strTrim s = "" ↔ s.data.all isWS = true := by
  constructor
  · intro h
    exact (trimChars_eq_nil_iff s.data).mp (congrArg String.data h)
  · intro h
    exact congrArg String.mk ((trimChars_eq_nil_iff s.data).mpr h)

/-! ### Claim C5: patient creation validation -/

/-- C5: creating a patient whose supplied name is empty or whitespace-only
fails with the 400 validation error and leaves the store untouched; a name
that is non-empty after trimming succeeds with 201, returns the fresh id,
and appends a patient row holding the trimmed name. -/
theorem create_patient_validation (db : DB) (nameIn sexIn : Option String) :
    ((nameIn.getD "").data.all isWS = true →
      create_patient db nameIn sexIn = (db, .err400 "Name is required")) ∧
    ((nameIn.getD "").data.all isWS = false →
      create_patient db nameIn sexIn =
        ({ db with
            patients := db.patients ++
              [{ id := db.nextPatientId, name := strTrim (nameIn.getD ""),
                 sex := pyOrNone sexIn }],
            nextPatientId := db.nextPatientId + 1 },
          .created201 "Patient created" db.nextPatientId)) := by
  constructor
  · intro h
    have ht : strTrim (nameIn.getD "") = "" := (strTrim_eq_empty_iff _).mpr h
    simp [create_patient, ht]
  · intro h
    have ht : ¬ strTrim (nameIn.getD "") = "" := by
      intro hc
      rw [(strTrim_eq_empty_iff _).mp hc] at h
      exact absurd h (by decide)
    simp [create_patient, ht]

/-- Witness for C5 at a whitespace-only and a substantive name. -/
theorem create_patient_validation_witness :
    create_patient ⟨[], [], 1, 1⟩ (some "   ") none = (⟨[], [], 1, 1⟩, .err400 "Name is required") ∧
    create_patient ⟨[], [], 1, 1⟩ (some " Jane ") none =
      (⟨[{ id := 1, name := "Jane", sex := none }], [], 2, 1⟩, .created201 "Patient created" 1) := by
  constructor
  · exact (create_patient_validation ⟨[], [], 1, 1⟩ (some "   ") none).1 (by decide)
  · have h := (create_patient_validation ⟨[], [], 1, 1⟩ (some " Jane ") none).2 (by decide)
    rw [h]
    decide

/-! ### Claim C6: visit under a missing patient -/

/-- C6: adding a visit under a patient id that matches no stored patient
fails with the 404 not-found error and leaves the whole store, in particular
the visits table, unchanged. -/
theorem add_visit_missing_patient (db : DB) (now : String) (pid : Nat) (d : VisitPayload)
    (h : ∀ p ∈ db.patients, p.id ≠ pid) :
    add_visit db now pid d = (db, .notFound404 "Patient not found") := by
  have hany : db.patients.any (fun p => p.id == pid) = false := by
    rw [List.any_eq_false]
    intro p hp
    simpa using h p hp
  simp [add_visit, hany]

/-- Witness for C6: a store holding one patient with id 1 rejects a visit for id 2. -/
theorem add_visit_missing_patient_witness :
    add_visit ⟨[{ id := 1, name := "Ana", sex := none }], [], 2, 1⟩ "2026-10-12 09:00:00" 2 {} =
      (⟨[{ id := 1, name := "Ana", sex := none }], [], 2, 1⟩, .notFound404 "Patient not found") :=
  add_visit_missing_patient _ _ 2 {} (by decide)

/-! ### Claim C8: updating a missing patient -/

/-- C8: a PUT on a patient id that matches no stored patient, with a valid
name, still answers 200 "Patient updated" (there is no existence check), and
the `UPDATE ... WHERE id=?` rewrites no row, so the store is unchanged. -/
theorem update_patient_missing (db : DB) (pid : Nat) (nameIn sexIn : Option String)
    (hname : (nameIn.getD "").data.all isWS = false)
    (h : ∀ p ∈ db.patients, p.id ≠ pid) :
    update_patient db pid nameIn sexIn = (db, .ok200 "Patient updated") ∧
    (update_patient db pid nameIn sexIn).2.statusCode = 200 := by
  have ht : ¬ strTrim (nameIn.getD "") = "" := by
    intro hc
    rw [(strTrim_eq_empty_iff _).mp hc] at hname
    exact absurd hname (by decide)
  have hmap : (db.patients.map fun p =>
      if p.id == pid then
        { p with name := strTrim (nameIn.getD ""), sex := pyOrNone sexIn }
      else p) = db.patients := by
    have := List.map_congr_left (l := db.patients)
      (f := fun p : PatientR =>
        if p.id == pid then
          { p with name := strTrim (nameIn.getD ""), sex := pyOrNone sexIn }
        else p)
      (g := id) (by
        intro p hp
        have : (p.id == pid) = false := by simpa using h p hp
        simp [this])
    simpa using this
  constructor
  · simp only [update_patient]
    rw [if_neg ht, hmap]
  · simp only [update_patient]
    rw [if_neg ht]
    rfl

/-- Witness for C8: updating absent id 5 answers 200 and changes nothing. -/
theorem update_patient_missing_witness :
    update_patient ⟨[{ id := 1, name := "Ana", sex := none }], [], 2, 1⟩ 5 (some "Bob") none =
      (⟨[{ id := 1, name := "Ana", sex := none }], [], 2, 1⟩, .ok200 "Patient updated") :=
  (update_patient_missing ⟨[{ id := 1, name := "Ana", sex := none }], [], 2, 1⟩ 5
    (some "Bob") none (by decide) (by decide)).1

/-! ### Claim C10: visit update overwrites every stored field -/

/-- C10: updating an existing visit succeeds with "Visit updated" and rewrites
all nine stored fields of the matching row from the request payload alone —
an absent `visit_date` or `age` becomes null and an absent text field becomes
the empty string, never the previously stored value — while rows with other
ids survive unchanged. -/
theorem update_visit_overwrites (db : DB) (vid : Nat) (d : VisitPayload)
    (hex : ∃ v ∈ db.visits, v.id = vid) :
    (update_visit db vid d).2 = .ok200 "Visit updated" ∧
    (∀ w ∈ (update_visit db vid d).1.visits, w.id = vid →
      w.visit_date = d.visit_date ∧ w.age = d.age ∧
      w.address = some (pyOrEmpty d.address) ∧ w.status = some (pyOrEmpty d.status) ∧
      w.history = some (pyOrEmpty d.history) ∧ w.pe = some (pyOrEmpty d.pe) ∧
      w.diagnosis = some (pyOrEmpty d.diagnosis) ∧
      w.management = some (pyOrEmpty d.management) ∧
      w.remarks = some (pyOrEmpty d.remarks)) ∧
    (∀ v ∈ db.visits, v.id ≠ vid → v ∈ (update_visit db vid d).1.visits) := by
  obtain ⟨v0, hv0, hid0⟩ := hex
  have hany : db.visits.any (fun v => v.id == vid) = true := by
    rw [List.any_eq_true]
    exact ⟨v0, hv0, by simpa using hid0⟩
  refine ⟨by simp [update_visit, hany], ?_, ?_⟩
  · intro w hw hwid
    simp only [update_visit, hany, if_true] at hw
    simp only [List.mem_map] at hw
    obtain ⟨u, hu, hfu⟩ := hw
    by_cases hcase : (u.id == vid) = true
    · rw [hcase] at hfu
      simp only [if_true] at hfu
      subst hfu
      exact ⟨rfl, rfl, rfl, rfl, rfl, rfl, rfl, rfl, rfl⟩
    · rw [Bool.not_eq_true] at hcase
      rw [hcase] at hfu
      simp only [Bool.false_eq_true, if_false] at hfu
      subst hfu
      rw [hwid] at hcase
      simp at hcase
  · intro v hv hne
    simp only [update_visit, hany, if_true]
    rw [List.mem_map]
    refine ⟨v, hv, ?_⟩
    have : (v.id == vid) = false := by simpa using hne
    simp [this]

/-- Witness for C10: an absent payload nulls the date and age and empties the
text fields of the stored visit. -/
theorem update_visit_overwrites_witness :
    (update_visit
        ⟨[{ id := 1, name := "Ana", sex := none }],
         [{ id := 7, patient_id := 1, visit_date := some "2024-01-01", age := some 30,
            address := some "x", status := some "y", history := some "h", pe := some "p",
            diagnosis := some "dg", management := some "m", remarks := some "r" }], 2, 8⟩
        7 {}).2 = .ok200 "Visit updated" :=
  (update_visit_overwrites _ 7 {}
    ⟨{ id := 7, patient_id := 1, visit_date := some "2024-01-01", age := some 30,
       address := some "x", status := some "y", history := some "h", pe := some "p",
       diagnosis := some "dg", management := some "m", remarks := some "r" },
     by decide, rfl⟩).1

/-! ### Claim C7: visit creation round-trip -/

/-- C7 counterexample: a visit created with the supplied value
`visit_date = ""` does not read back with that value — the empty string is
falsy, so creation stores the current timestamp instead. -/
theorem visit_roundtrip_counterexample :
    (add_visit ⟨[{ id := 1, name := "Ana", sex := none }], [], 2, 1⟩
        "2025-01-02 03:04:05" 1 { visit_date := some "" }).2 = .ok "Visit added" 1 ∧
    get_visit (add_visit ⟨[{ id := 1, name := "Ana", sex := none }], [], 2, 1⟩
        "2025-01-02 03:04:05" 1 { visit_date := some "" }).1 1 =
      .found { id := 1, patient_id := 1, visit_date := some "2025-01-02 03:04:05",
               age := none, address := none, status := none, history := some "",
               pe := some "", diagnosis := some "", management := some "",
               remarks := some "" } ∧
    some "2025-01-02 03:04:05" ≠ some "" := by
  decide

/-- C7 amended: for a payload whose `visit_date`, when supplied, is non-empty,
creating a visit under an existing patient and reading back the returned id
yields exactly the supplied values — absent free-text fields normalized to
the empty string, absent `age`/`address`/`status` read back as null, and an
absent `visit_date` read back as the creation timestamp. -/
theorem visit_roundtrip (db : DB) (now : String) (pid : Nat) (d : VisitPayload)
    (hp : ∃ p ∈ db.patients, p.id = pid)
    (hids : ∀ v ∈ db.visits, v.id < db.nextVisitId)
    (hvd : ∀ s, d.visit_date = some s → s ≠ "") :
    (add_visit db now pid d).2 = .ok "Visit added" db.nextVisitId ∧
    get_visit (add_visit db now pid d).1 db.nextVisitId =
      .found { id := db.nextVisitId, patient_id := pid,
               visit_date := some (d.visit_date.getD now),
               age := d.age, address := d.address, status := d.status,
               history := some (pyOrEmpty d.history), pe := some (pyOrEmpty d.pe),
               diagnosis := some (pyOrEmpty d.diagnosis),
               management := some (pyOrEmpty d.management),
               remarks := some (pyOrEmpty d.remarks) } := by
  obtain ⟨p0, hp0, hpid0⟩ := hp
  have hany : db.patients.any (fun p => p.id == pid) = true := by
    rw [List.any_eq_true]
    exact ⟨p0, hp0, by simpa using hpid0⟩
  have hdate :
      (match d.visit_date with
        | some s => if s = "" then some now else some s
        | none => some now) = some (d.visit_date.getD now) := by
    cases hv : d.visit_date with
    | none => rfl
    | some s =>
      have : ¬ s = "" := hvd s hv
      simp [this]
  have hnone : db.visits.find? (fun v => v.id == db.nextVisitId) = none := by
    rw [List.find?_eq_none]
    intro v hv
    have := hids v hv
    simp
    omega
  constructor
  · simp [add_visit, hany]
  · simp only [add_visit, hany, if_true]
    simp only [get_visit, List.find?_append, hnone, Option.none_or]
    rw [List.find?_cons_of_pos _ (by simp)]
    simp [hdate]

/-- Witness for C7 at a concrete store, payload and timestamp. -/
theorem visit_roundtrip_witness :
    get_visit (add_visit ⟨[{ id := 1, name := "Ana", sex := none }], [], 2, 5⟩
        "2026-10-12 09:00:00" 1
        { visit_date := some "2024-03-15", age := some 30, history := some "flu" }).1 5 =
      .found { id := 5, patient_id := 1, visit_date := some "2024-03-15", age := some 30,
               address := none, status := none, history := some "flu", pe := some "",
               diagnosis := some "", management := some "", remarks := some "" } := by
  have h := (visit_roundtrip ⟨[{ id := 1, name := "Ana", sex := none }], [], 2, 5⟩
    "2026-10-12 09:00:00" 1
    { visit_date := some "2024-03-15", age := some 30, history := some "flu" }
    ⟨{ id := 1, name := "Ana", sex := none }, by decide, rfl⟩
    (by intro v hv; simp at hv)
    (by intro s hs h0; cases hs; exact absurd h0 (by decide))).2
  rw [h]
  decide

/-! ### Claim C4: visit-date display formatting -/

/-- C4 counterexample: a stored value that is not parseable as a date is
returned verbatim, not replaced by the current date's long-form rendering. -/
theorem format_date_unparseable_counterexample :
    format_date ⟨2026, 10, 12⟩ (some "garbage") = "garbage" ∧
    format_date ⟨2026, 10, 12⟩ (some "garbage") ≠ renderLong ⟨2026, 10, 12⟩ := by
  decide

/-- C4 amended: a missing or empty stored value renders as today's long-form
date; a stored value whose first space-separated token parses as
`YYYY-MM-DD` renders as that date's long form; a non-empty unparseable value
is returned unchanged. -/
theorem format_date_spec (today : Date) (s : String) :
    format_date today none = renderLong today ∧
    format_date today (some "") = renderLong today ∧
    (∀ dt, parseYmd (firstTok s) = some dt → format_date today (some s) = renderLong dt) ∧
    (s ≠ "" → parseYmd (firstTok s) = none → format_date today (some s) = s) := by
  refine ⟨rfl, rfl, ?_, ?_⟩
  · intro dt hdt
    by_cases hs : s = ""
    · subst hs
      rw [(by decide : parseYmd (firstTok "") = none)] at hdt
      exact Option.noConfusion hdt
    · simp only [format_date, if_neg hs, hdt]
  · intro hs hnone
    simp only [format_date, if_neg hs, hnone]

/-- Witness for C4 on a timestamped parseable value and an unparseable one. -/
theorem format_date_spec_witness :
    format_date ⟨2026, 1, 1⟩ (some "2024-03-15 10:20:30") = "March 15, 2024" ∧
    format_date ⟨2026, 1, 1⟩ (some "not-a-date") = "not-a-date" := by
  constructor
  · have h := (format_date_spec ⟨2026, 1, 1⟩ "2024-03-15 10:20:30").2.2.1
      ⟨2024, 3, 15⟩ (by decide)
    rw [h]
    decide
  · exact (format_date_spec ⟨2026, 1, 1⟩ "not-a-date").2.2.2 (by decide) (by decide)

/-! ### Claim C9: falsy replacement values still consume their run -/

lemma substGroups_congr (gs : List (List Char)) :
    ∀ rs₁ rs₂ : List (Option String),
      rs₁.map (fun o => o.getD "") = rs₂.map (fun o => o.getD "") →
      substGroups gs rs₁ = substGroups gs rs₂ := by
  induction gs with
  | nil => intro rs₁ rs₂ _; rfl
  | cons g gs ih =>
    intro rs₁ rs₂ h
    by_cases hg : (g.all isUnd && !g.isEmpty) = true
    · cases rs₁ with
      | nil =>
        cases rs₂ with
        | nil => rfl
        | cons r₂ t₂ => simp at h
      | cons r₁ t₁ =>
        cases rs₂ with
        | nil => simp at h
        | cons r₂ t₂ =>
          simp only [List.map_cons, List.cons.injEq] at h
          simp only [substGroups, hg, if_true]
          rw [h.1, ih t₁ t₂ h.2]
    · have hg' : (g.all isUnd && !g.isEmpty) = false := by
        rwa [Bool.not_eq_true] at hg
      simp only [substGroups, hg', Bool.false_eq_true, if_false]
      rw [ih rs₁ rs₂ h]

/-- C9: a `None` replacement value behaves exactly like the empty string —
it consumes its underscore run and substitutes nothing — so a blank whose
matched field is empty disappears from the output instead of remaining
literal underscores. -/
theorem falsy_replacement_consumes_run (text : String) (rs : List (Option String)) :
    replaceUnderscoreGroups text (none :: rs) = replaceUnderscoreGroups text (some "" :: rs) ∧
    replaceUnderscoreGroups "Diagnosis: ____, rest: __" [none, some "ok"] =
      "Diagnosis: , rest: ok" ∧
    (replace_underscore_groups_in_paragraph
        ⟨[{ text := "Impression blank: ___", fontName := "Arial", fontSize := 11 }]⟩
        [some ""]).text = "Impression blank: " := by
  refine ⟨?_, by decide, by decide⟩
  unfold replaceUnderscoreGroups
  exact congrArg String.mk (substGroups_congr _ _ _ (by simp))

/-! ### Claim C1: underscore-run replacement refines the specification -/

lemma takeWhile_ext {α : Type} (p q : α → Bool) (h : ∀ x, p x = q x) :
    ∀ l : List α, l.takeWhile p = l.takeWhile q := by
  intro l
  induction l with
  | nil => rfl
  | cons a l ih => rw [List.takeWhile_cons, List.takeWhile_cons, h a, ih]

lemma dropWhile_ext {α : Type} (p q : α → Bool) (h : ∀ x, p x = q x) :
    ∀ l : List α, l.dropWhile p = l.dropWhile q := by
  intro l
  induction l with
  | nil => rfl
  | cons a l ih => rw [List.dropWhile_cons, List.dropWhile_cons, h a, ih]

lemma specSplitRuns_nil : specSplitRuns [] = [] := by
  rw [specSplitRuns]

lemma specSplitRuns_cons (c : Char) (cs : List Char) :
    specSplitRuns (c :: cs) =
      (c :: cs.takeWhile (fun x => isUnd x == isUnd c)) ::
        specSplitRuns (cs.dropWhile (fun x => isUnd x == isUnd c)) := by
  rw [specSplitRuns]

/-- The right-fold grouping that models `re.split(r'(_+)', ·)` produces
exactly the left-to-right maximal-run decomposition of the specification. -/
lemma groupUnd_eq_specSplitRuns : ∀ cs : List Char, groupUnd cs = specSplitRuns cs := by
  intro cs
  induction cs with
  | nil => rw [specSplitRuns_nil, groupUnd]
  | cons c cs ih =>
    cases cs with
    | nil =>
      rw [specSplitRuns_cons]
      simp only [List.takeWhile_nil, List.dropWhile_nil, specSplitRuns_nil]
      rfl
    | cons d cs' =>
      rw [groupUnd, ih, specSplitRuns_cons d cs', specSplitRuns_cons c (d :: cs')]
      show (if (isUnd c == isUnd d) = true
          then (c :: d :: List.takeWhile (fun x => isUnd x == isUnd d) cs') ::
            specSplitRuns (List.dropWhile (fun x => isUnd x == isUnd d) cs')
          else [c] :: (d :: List.takeWhile (fun x => isUnd x == isUnd d) cs') ::
            specSplitRuns (List.dropWhile (fun x => isUnd x == isUnd d) cs')) =
        (c :: List.takeWhile (fun x => isUnd x == isUnd c) (d :: cs')) ::
          specSplitRuns (List.dropWhile (fun x => isUnd x == isUnd c) (d :: cs'))
      by_cases hcd : (isUnd c == isUnd d) = true
      · have hEq : isUnd c = isUnd d := by simpa using hcd
        have hpd : (isUnd d == isUnd c) = true := by rw [hEq]; simp
        rw [if_pos hcd]
        rw [List.takeWhile_cons_of_pos (p := fun x => isUnd x == isUnd c) (l := cs') hpd]
        rw [List.dropWhile_cons_of_pos (p := fun x => isUnd x == isUnd c) (l := cs') hpd]
        rw [takeWhile_ext (fun x => isUnd x == isUnd c) (fun x => isUnd x == isUnd d)
          (fun x => by rw [hEq]) cs']
        rw [dropWhile_ext (fun x => isUnd x == isUnd c) (fun x => isUnd x == isUnd d)
          (fun x => by rw [hEq]) cs']
      · have hNe : isUnd c ≠ isUnd d := by simpa using hcd
        have hpd : ¬ ((fun x => isUnd x == isUnd c) d = true) := by
          simp only [beq_iff_eq]
          exact fun hx => hNe hx.symm
        rw [if_neg hcd]
        rw [List.takeWhile_cons_of_neg (p := fun x => isUnd x == isUnd c) (l := cs') hpd]
        rw [List.dropWhile_cons_of_neg (p := fun x => isUnd x == isUnd c) (l := cs') hpd]
        rw [specSplitRuns_cons d cs']

lemma substGroups_map_some : ∀ (gs : List (List Char)) (vals : List String),
    substGroups gs (vals.map some) = specSubstRuns gs vals := by
  intro gs
  induction gs with
  | nil => intro vals; rfl
  | cons g gs ih =>
    intro vals
    by_cases hg : (g.all isUnd && !g.isEmpty) = true
    · cases vals with
      | nil =>
        simp only [List.map_nil, substGroups, specSubstRuns, hg, if_true]
        rw [show substGroups gs [] = substGroups gs (List.map some []) from rfl, ih []]
      | cons v vs =>
        simp only [List.map_cons, substGroups, specSubstRuns, hg, if_true, Option.getD_some]
        rw [ih vs]
    · have hg' : (g.all isUnd && !g.isEmpty) = false := by
        rwa [Bool.not_eq_true] at hg
      simp only [substGroups, specSubstRuns, hg', Bool.false_eq_true, if_false]
      rw [ih vals]

/-- The computed replacement string agrees with the specification's
split-substitute-reconstruct description. -/
lemma replaceUnderscoreGroups_eq_spec (text : String) (vals : List String) :
    replaceUnderscoreGroups text (vals.map some) = specUnderscoreReplace text vals := by
  unfold replaceUnderscoreGroups specUnderscoreReplace
  rw [groupUnd_eq_specSplitRuns, substGroups_map_some]

lemma textOfRuns_append (l₁ l₂ : List Run) :
    textOfRuns (l₁ ++ l₂) = textOfRuns l₁ ++ textOfRuns l₂ := by
  induction l₁ with
  | nil => rfl
  | cons r rs ih => simp [textOfRuns, ih]

lemma textOfRuns_blanked (rs : List Run) :
    textOfRuns (rs.map fun r => { r with text := "" }) = [] := by
  induction rs with
  | nil => rfl
  | cons r rs ih => simpa [textOfRuns] using ih

/-- C1: underscore-run replacement splits the paragraph text on maximal
underscore runs, substitutes them left to right with the supplied values
(extra runs staying untouched), and re-renders the reconstructed string as
the single visible run, styled Cambria 14, all prior runs being blanked;
on "Name: _____, Address: ____" with values ["Jane Doe", "12 Main St"] the
result reads "Name: Jane Doe, Address: 12 Main St". -/
theorem underscore_replacement_spec (p : Paragraph) (vals : List String) :
    (replace_underscore_groups_in_paragraph p (vals.map some)).text =
      specUnderscoreReplace p.text vals ∧
    (∀ r ∈ (replace_underscore_groups_in_paragraph p (vals.map some)).runs.dropLast,
      r.text = "") ∧
    (replace_underscore_groups_in_paragraph p (vals.map some)).runs.getLast? =
      some { text := specUnderscoreReplace p.text vals,
             fontName := "Cambria", fontSize := 14 } ∧
    (replace_underscore_groups_in_paragraph
        ⟨[{ text := "Name: _____, Address: ____", fontName := "Arial", fontSize := 11 }]⟩
        [some "Jane Doe", some "12 Main St"]).text =
      "Name: Jane Doe, Address: 12 Main St" := by
  refine ⟨?_, ?_, ?_, by decide⟩
  · show (⟨textOfRuns ((p.runs.map fun r => { r with text := "" }) ++
      [{ text := replaceUnderscoreGroups p.text (vals.map some),
         fontName := "Cambria", fontSize := 14 }])⟩ : String) = _
    rw [textOfRuns_append, textOfRuns_blanked]
    simp only [List.nil_append, textOfRuns, List.append_nil]
    rw [replaceUnderscoreGroups_eq_spec]
  · intro r hr
    simp only [replace_underscore_groups_in_paragraph, List.dropLast_concat] at hr
    obtain ⟨u, _, hru⟩ := List.mem_map.mp hr
    rw [← hru]
  · simp only [replace_underscore_groups_in_paragraph, List.getLast?_concat]
    rw [replaceUnderscoreGroups_eq_spec]

/-! ### Lemmas: the lookahead window -/

lemma memNat_cons_false (a x : Nat) (l : List Nat) :
    memNat (a :: l) x = false ↔ (a ≠ x ∧ memNat l x = false) := by
  simp [memNat, List.any_cons]

lemma memNat_cons_self (a : Nat) (l : List Nat) : memNat (a :: l) a = true := by
  simp [memNat, List.any_cons]

/-- If no index in the remaining window is eligible, the lookahead loop
falls off the end and changes nothing: no fill, no error. -/
lemma lookahead_none (r : Rule) (v : String) (paras : Array Paragraph) :
    ∀ (fuel j : Nat) (processed : List Nat),
      (∀ k, j ≤ k → k < j + fuel → ¬ elig paras processed k) →
      lookahead r v paras processed j fuel = (paras, processed, []) := by
  intro fuel
  induction fuel with
  | zero => intro j processed _; rfl
  | succ fuel ih =>
    intro j processed h
    rw [lookahead]
    by_cases hj : j < paras.size
    · rw [if_pos hj]
      by_cases hm : memNat processed j = true
      · rw [if_pos hm]
        exact ih (j + 1) processed (fun k hk1 hk2 => h k (by omega) (by omega))
      · rw [if_neg hm]
        by_cases hu : hasUnd (paraTextAt paras j) = true
        · exact absurd ⟨hj, by simpa using hm, hu⟩ (h j (Nat.le_refl j) (by omega))
        · rw [if_neg hu]
          exact ih (j + 1) processed (fun k hk1 hk2 => h k (by omega) (by omega))
    · rw [if_neg hj]

/-- The lookahead loop fills exactly the least eligible index of the window:
it consumes it and rewrites that paragraph with the single supplied value. -/
lemma lookahead_found (r : Rule) (v : String) (paras : Array Paragraph) :
    ∀ (fuel j : Nat) (processed : List Nat) (j0 : Nat),
      j ≤ j0 → j0 < j + fuel → elig paras processed j0 →
      (∀ k, j ≤ k → k < j0 → ¬ elig paras processed k) →
      lookahead r v paras processed j fuel =
        (paras.setD j0 (replace_underscore_groups_in_paragraph (paras.getD j0 ⟨[]⟩) [some v]),
          j0 :: processed, [⟨j0, r⟩]) := by
  intro fuel
  induction fuel with
  | zero => intro j processed j0 h1 h2 _ _; omega
  | succ fuel ih =>
    intro j processed j0 h1 h2 he hmin
    have hj : j < paras.size := by
      have := he.1
      omega
    rw [lookahead, if_pos hj]
    by_cases hm : memNat processed j = true
    · have hne : j ≠ j0 := by
        intro hx
        rw [hx, he.2.1] at hm
        exact Bool.noConfusion hm
      rw [if_pos hm]
      exact ih (j + 1) processed j0 (by omega) (by omega) he
        (fun k hk1 hk2 => hmin k (by omega) hk2)
    · rw [if_neg hm]
      by_cases hu : hasUnd (paraTextAt paras j) = true
      · have hje : elig paras processed j := ⟨hj, by simpa using hm, hu⟩
        have hj0 : j0 = j := by
          by_contra hne
          exact hmin j (Nat.le_refl j) (by omega) hje
        subst hj0
        rw [if_pos hu]
      · have hne : j ≠ j0 := by
          intro hx
          rw [hx] at hu
          exact hu he.2.2
        rw [if_neg hu]
        exact ih (j + 1) processed j0 (by omega) (by omega) he
          (fun k hk1 hk2 => hmin k (by omega) hk2)

lemma startsWithChars_head_ne (a b : Char) (ps qs s : List Char)
    (hne : a ≠ b) (h : startsWithChars (a :: ps) s = true) :
    startsWithChars (b :: qs) s = false := by
  cases s with
  | nil => exact Bool.noConfusion h
  | cons c l =>
    simp only [startsWithChars, Bool.and_eq_true] at h
    have hac : a = c := by simpa using h.1
    simp only [startsWithChars, Bool.and_eq_false_iff]
    left
    simp only [beq_eq_false_iff_ne]
    rw [← hac]
    exact fun hx => hne hx.symm

/-- A trimmed text beginning with "remarks" cannot begin with "impression",
so the remarks branch is never shadowed by the impression branch. -/
lemma remCond_impCond_false (txt : String) (h : remCond txt = true) : impCond txt = false := by
  unfold remCond at h
  unfold impCond
  exact startsWithChars_head_ne 'r' 'i' ("emarks".data) ("mpression".data)
    (trimChars (lowList txt.data)) (by decide) h

/-! ### Claim C2: the impression / remarks lookahead -/

/-- C2 amended: when a paragraph's trimmed lowercase text starts with
"impression" (resp. "remarks") and the paragraph is not claimed by one of
the earlier keyword rules, the scan inspects at most the next five
paragraphs, skipping consumed ones; it fills the first one containing an
underscore run with the diagnosis (resp. remarks) text, consumes it, and
stops; when no such paragraph exists in the window everything is left
untouched — no fill, no error, blanks remain literal underscores. -/
theorem impression_remarks_lookahead_spec (d : CertData) (paras : Array Paragraph)
    (processed : List Nat) (idx : Nat)
    (h1 : dateCond (paraTextAt paras idx) = false)
    (h2 : certifyCond (paraTextAt paras idx) = false)
    (h3 : examCond (paraTextAt paras idx) = false) :
    (impCond (paraTextAt paras idx) = true →
      ((∀ k, ¬ windowElig paras processed idx k) →
        scanStep d paras processed idx = (paras, processed, [])) ∧
      (∀ j0, windowElig paras processed idx j0 →
        (∀ k, windowElig paras processed idx k → j0 ≤ k) →
        scanStep d paras processed idx =
          (paras.setD j0 (replace_underscore_groups_in_paragraph (paras.getD j0 ⟨[]⟩)
              [some d.diagnosis]),
            j0 :: processed, [⟨j0, .impressionLA⟩]))) ∧
    (remCond (paraTextAt paras idx) = true →
      ((∀ k, ¬ windowElig paras processed idx k) →
        scanStep d paras processed idx = (paras, processed, [])) ∧
      (∀ j0, windowElig paras processed idx j0 →
        (∀ k, windowElig paras processed idx k → j0 ≤ k) →
        scanStep d paras processed idx =
          (paras.setD j0 (replace_underscore_groups_in_paragraph (paras.getD j0 ⟨[]⟩)
              [some d.remarks]),
            j0 :: processed, [⟨j0, .remarksLA⟩]))) := by
  constructor
  · intro himp
    have hred : scanStep d paras processed idx =
        lookahead .impressionLA d.diagnosis paras processed (idx + 1) 5 := by
      simp only [scanStep, h1, h2, h3, himp, Bool.false_eq_true, if_false, if_true]
    constructor
    · intro hnone
      rw [hred]
      exact lookahead_none _ _ _ 5 (idx + 1) processed
        (fun k hk1 hk2 hel => hnone k ⟨hk1, hk2, hel⟩)
    · intro j0 hj0 hmin
      obtain ⟨ha, hb, hc⟩ := hj0
      rw [hred]
      exact lookahead_found _ _ _ 5 (idx + 1) processed j0 ha hb hc
        (fun k hk1 hk2 hel => absurd (hmin k ⟨hk1, by omega, hel⟩) (by omega))
  · intro hrem
    have himp' : impCond (paraTextAt paras idx) = false :=
      remCond_impCond_false _ hrem
    have hred : scanStep d paras processed idx =
        lookahead .remarksLA d.remarks paras processed (idx + 1) 5 := by
      simp only [scanStep, h1, h2, h3, himp', hrem, Bool.false_eq_true, if_false, if_true]
    constructor
    · intro hnone
      rw [hred]
      exact lookahead_none _ _ _ 5 (idx + 1) processed
        (fun k hk1 hk2 hel => hnone k ⟨hk1, hk2, hel⟩)
    · intro j0 hj0 hmin
      obtain ⟨ha, hb, hc⟩ := hj0
      rw [hred]
      exact lookahead_found _ _ _ 5 (idx + 1) processed j0 ha hb hc
        (fun k hk1 hk2 hel => absurd (hmin k ⟨hk1, by omega, hel⟩) (by omega))

/-- Document whose first paragraph both starts with "impression" and
contains "date" together with a blank. -/
def parasCE2 : Array Paragraph :=
  #[⟨[{ text := "Impression dated ____", fontName := "Arial", fontSize := 11 }]⟩,
    ⟨[{ text := "____", fontName := "Arial", fontSize := 11 }]⟩]

/-- Visit data for the C2 counterexample. -/
def certCE2 : CertData :=
  { dateText := "March 15, 2024", nameWithInfo := "Ana 20/F", address := "Addr",
    history := "hist", diagnosis := "Flu", remarks := "rem" }

/-- C2 counterexample: the first paragraph's trimmed lowercase text starts
with "impression" and a subsequent paragraph in the window holds an
underscore run, yet the scan performs no lookahead — the paragraph also
contains "date" plus a blank, so the date rule claims it first — and the
blank is never filled with the diagnosis. -/
theorem impression_lookahead_shadowed_counterexample :
    impCond (paraTextAt parasCE2 0) = true ∧
    hasUnd (paraTextAt parasCE2 1) = true ∧
    (scan certCE2 parasCE2).2.2 = [⟨0, .date⟩] ∧
    paraTextAt (scan certCE2 parasCE2).1 1 = "____" ∧
    certCE2.diagnosis = "Flu" ∧
    paraTextAt (scan certCE2 parasCE2).1 1 ≠ "Flu" := by
  decide

/-- Document for the C2 witness: an impression header followed by a blank,
and a remarks header followed by a blank, in two separate scans. -/
def parasW2 : Array Paragraph :=
  #[⟨[{ text := "Impression:", fontName := "Arial", fontSize := 11 }]⟩,
    ⟨[{ text := "fill ___ here", fontName := "Arial", fontSize := 11 }]⟩]

/-- Remarks variant of the C2 witness document. -/
def parasW2r : Array Paragraph :=
  #[⟨[{ text := "Remarks:", fontName := "Arial", fontSize := 11 }]⟩,
    ⟨[{ text := "note ___ end", fontName := "Arial", fontSize := 11 }]⟩]

/-- Witness for C2 filling the first blank after an impression header and
after a remarks header. -/
theorem impression_remarks_lookahead_spec_witness :
    scanStep certCE2 parasW2 [] 0 =
      (parasW2.setD 1 (replace_underscore_groups_in_paragraph (parasW2.getD 1 ⟨[]⟩)
          [some certCE2.diagnosis]), 1 :: [], [⟨1, .impressionLA⟩]) ∧
    scanStep certCE2 parasW2r [] 0 =
      (parasW2r.setD 1 (replace_underscore_groups_in_paragraph (parasW2r.getD 1 ⟨[]⟩)
          [some certCE2.remarks]), 1 :: [], [⟨1, .remarksLA⟩]) := by
  constructor
  · exact ((impression_remarks_lookahead_spec certCE2 parasW2 [] 0 (by decide) (by decide)
      (by decide)).1 (by decide)).2 1 ⟨by decide, by decide, by decide, by decide, by decide⟩
      (fun k hk => hk.1)
  · exact ((impression_remarks_lookahead_spec certCE2 parasW2r [] 0 (by decide) (by decide)
      (by decide)).2 (by decide)).2 1 ⟨by decide, by decide, by decide, by decide, by decide⟩
      (fun k hk => hk.1)

/-! ### Claim C3: which paragraphs a scan pass can fill -/

/-- A lookahead call either changes nothing or records exactly one fill, of
an index that was not yet consumed, which it adds to the consumed set. -/
lemma lookahead_res_cases (r : Rule) (v : String) (paras : Array Paragraph) :
    ∀ (fuel j : Nat) (processed : List Nat),
      ((lookahead r v paras processed j fuel).2.1 = processed ∧
        (lookahead r v paras processed j fuel).2.2 = []) ∨
      (∃ k, (lookahead r v paras processed j fuel).2.1 = k :: processed ∧
        (lookahead r v paras processed j fuel).2.2 = [⟨k, r⟩] ∧
        memNat processed k = false) := by
  intro fuel
  induction fuel with
  | zero => intro j processed; exact Or.inl ⟨rfl, rfl⟩
  | succ fuel ih =>
    intro j processed
    rw [lookahead]
    by_cases hj : j < paras.size
    · rw [if_pos hj]
      by_cases hm : memNat processed j = true
      · rw [if_pos hm]
        exact ih (j + 1) processed
      · rw [if_neg hm]
        by_cases hu : hasUnd (paraTextAt paras j) = true
        · rw [if_pos hu]
          exact Or.inr ⟨j, rfl, rfl, by simpa using hm⟩
        · rw [if_neg hu]
          exact ih (j + 1) processed
    · rw [if_neg hj]
      exact Or.inl ⟨rfl, rfl⟩

/-- One scan iteration either records no fill, or exactly one fill whose
index it adds to the consumed set; a lookahead fill always targets an index
that was not yet consumed. -/
lemma scanStep_cases (d : CertData) (paras : Array Paragraph) (processed : List Nat) (idx : Nat) :
    ((scanStep d paras processed idx).2.1 = processed ∧
      (scanStep d paras processed idx).2.2 = []) ∨
    (∃ e : Fill, (scanStep d paras processed idx).2.1 = e.idx :: processed ∧
      (scanStep d paras processed idx).2.2 = [e] ∧
      (e.rule.isLookahead = true → memNat processed e.idx = false)) := by
  by_cases hd : dateCond (paraTextAt paras idx) = true
  · simp only [scanStep, hd, if_true]
    exact Or.inr ⟨⟨idx, .date⟩, rfl, rfl, fun h => Bool.noConfusion h⟩
  · have hd' : dateCond (paraTextAt paras idx) = false := by rwa [Bool.not_eq_true] at hd
    by_cases hc : certifyCond (paraTextAt paras idx) = true
    · simp only [scanStep, hd', hc, Bool.false_eq_true, if_false, if_true]
      exact Or.inr ⟨⟨idx, .certify⟩, rfl, rfl, fun h => Bool.noConfusion h⟩
    · have hc' : certifyCond (paraTextAt paras idx) = false := by rwa [Bool.not_eq_true] at hc
      by_cases hx : examCond (paraTextAt paras idx) = true
      · simp only [scanStep, hd', hc', hx, Bool.false_eq_true, if_false, if_true]
        exact Or.inr ⟨⟨idx, .examined⟩, rfl, rfl, fun h => Bool.noConfusion h⟩
      · have hx' : examCond (paraTextAt paras idx) = false := by rwa [Bool.not_eq_true] at hx
        by_cases hi : impCond (paraTextAt paras idx) = true
        · have hred : scanStep d paras processed idx =
              lookahead .impressionLA d.diagnosis paras processed (idx + 1) 5 := by
            simp only [scanStep, hd', hc', hx', hi, Bool.false_eq_true, if_false, if_true]
          rw [hred]
          rcases lookahead_res_cases .impressionLA d.diagnosis paras 5 (idx + 1) processed with
            h | ⟨k, hk1, hk2, hk3⟩
          · exact Or.inl h
          · exact Or.inr ⟨⟨k, .impressionLA⟩, hk1, hk2, fun _ => hk3⟩
        · have hi' : impCond (paraTextAt paras idx) = false := by rwa [Bool.not_eq_true] at hi
          by_cases hr : remCond (paraTextAt paras idx) = true
          · have hred : scanStep d paras processed idx =
                lookahead .remarksLA d.remarks paras processed (idx + 1) 5 := by
              simp only [scanStep, hd', hc', hx', hi', hr, Bool.false_eq_true, if_false, if_true]
            rw [hred]
            rcases lookahead_res_cases .remarksLA d.remarks paras 5 (idx + 1) processed with
              h | ⟨k, hk1, hk2, hk3⟩
            · exact Or.inl h
            · exact Or.inr ⟨⟨k, .remarksLA⟩, hk1, hk2, fun _ => hk3⟩
          · have hr' : remCond (paraTextAt paras idx) = false := by rwa [Bool.not_eq_true] at hr
            have hred : scanStep d paras processed idx = (paras, processed, []) := by
              simp only [scanStep, hd', hc', hx', hi', hr', Bool.false_eq_true, if_false]
            rw [hred]
            exact Or.inl ⟨rfl, rfl⟩

/-- A scan iteration never removes an index from the consumed set. -/
lemma scanStep_mono (d : CertData) (paras : Array Paragraph) (processed : List Nat) (idx : Nat) :
    ∀ x, memNat processed x = true →
      memNat (scanStep d paras processed idx).2.1 x = true := by
  intro x hx
  rcases scanStep_cases d paras processed idx with ⟨h, _⟩ | ⟨e, h, _, _⟩
  · rw [h]; exact hx
  · rw [h]
    simp only [memNat, List.any_cons, Bool.or_eq_true]
    exact Or.inr hx

/-- Unfolding of one scan iteration inside the driver loop. -/
lemma scanAux_succ (d : CertData) (fuel idx : Nat) (paras : Array Paragraph)
    (processed : List Nat) :
    scanAux d (fuel + 1) idx paras processed =
      ((scanAux d fuel (idx + 1) (scanStep d paras processed idx).1
          (scanStep d paras processed idx).2.1).1,
        (scanAux d fuel (idx + 1) (scanStep d paras processed idx).1
          (scanStep d paras processed idx).2.1).2.1,
        (scanStep d paras processed idx).2.2 ++
          (scanAux d fuel (idx + 1) (scanStep d paras processed idx).1
            (scanStep d paras processed idx).2.1).2.2) := rfl

/-- Invariant of the scan loop: the final consumed set extends the initial
one, every recorded fill ends up consumed, and a lookahead fill targets an
index that neither the initial consumed set nor any earlier fill touched. -/
lemma scanAux_inv (d : CertData) :
    ∀ (fuel idx : Nat) (paras : Array Paragraph) (processed : List Nat),
      (∀ x, memNat processed x = true →
        memNat (scanAux d fuel idx paras processed).2.1 x = true) ∧
      (∀ e ∈ (scanAux d fuel idx paras processed).2.2,
        memNat (scanAux d fuel idx paras processed).2.1 e.idx = true) ∧
      (∀ pre e post, (scanAux d fuel idx paras processed).2.2 = pre ++ e :: post →
        e.rule.isLookahead = true →
        memNat processed e.idx = false ∧ ∀ f ∈ pre, f.idx ≠ e.idx) := by
  intro fuel
  induction fuel with
  | zero =>
    intro idx paras processed
    refine ⟨fun x hx => hx, ?_, ?_⟩
    · intro e he
      exact absurd he (List.not_mem_nil e)
    · intro pre e post h
      have h' : ([] : List Fill) = pre ++ e :: post := h
      exact absurd h'.symm (by simp)
  | succ fuel ih =>
    intro idx paras processed
    obtain ⟨IH1, IH2, IH3⟩ :=
      ih (idx + 1) (scanStep d paras processed idx).1 (scanStep d paras processed idx).2.1
    have hstep := scanStep_cases d paras processed idx
    refine ⟨?_, ?_, ?_⟩
    · intro x hx
      exact IH1 x (scanStep_mono d paras processed idx x hx)
    · intro e he
      have he' : e ∈ (scanStep d paras processed idx).2.2 ++
          (scanAux d fuel (idx + 1) (scanStep d paras processed idx).1
            (scanStep d paras processed idx).2.1).2.2 := he
      rcases List.mem_append.mp he' with h | h
      · rcases hstep with ⟨_, h2⟩ | ⟨e₁, hp, h2, _⟩
        · rw [h2] at h
          exact absurd h (List.not_mem_nil e)
        · rw [h2] at h
          have : e = e₁ := by simpa using h
          subst this
          apply IH1
          rw [hp]
          exact memNat_cons_self e.idx processed
      · exact IH2 e h
    · intro pre e post hsplit hLA
      have hsplit' : (scanStep d paras processed idx).2.2 ++
          (scanAux d fuel (idx + 1) (scanStep d paras processed idx).1
            (scanStep d paras processed idx).2.1).2.2 = pre ++ e :: post := hsplit
      rcases hstep with ⟨hp1, h2⟩ | ⟨e₁, hp1, h2, hfresh⟩
      · rw [h2, List.nil_append] at hsplit'
        obtain ⟨hfr, hdist⟩ := IH3 pre e post hsplit' hLA
        rw [hp1] at hfr
        exact ⟨hfr, hdist⟩
      · rw [h2] at hsplit'
        cases pre with
        | nil =>
          rw [List.nil_append] at hsplit'
          have he : e₁ = e := by
            have := congrArg List.head? hsplit'
            simpa using this
          subst he
          exact ⟨hfresh hLA, fun f hf => absurd hf (List.not_mem_nil f)⟩
        | cons f pre' =>
          have hhead : e₁ = f := by
            have := congrArg List.head? hsplit'
            simpa using this
          have htail : (scanAux d fuel (idx + 1) (scanStep d paras processed idx).1
              (scanStep d paras processed idx).2.1).2.2 = pre' ++ e :: post := by
            have := congrArg List.tail hsplit'
            simpa using this
          obtain ⟨hfr, hdist⟩ := IH3 pre' e post htail hLA
          rw [hp1] at hfr
          obtain ⟨hne, hfr2⟩ := (memNat_cons_false e₁.idx e.idx processed).mp hfr
          refine ⟨hfr2, ?_⟩
          intro g hg
          rcases List.mem_cons.mp hg with hg1 | hg2
          · rw [hg1, ← hhead]
            exact hne
          · exact hdist g hg2

/-- C3 amended: the two lookahead rules never fill an already-filled
paragraph — every lookahead fill event targets a paragraph index distinct
from all earlier fills of the scan.  (A paragraph filled by lookahead can
still be re-filled later by a direct rule, which is the uncorrected part of
the original claim.) -/
theorem lookahead_fill_never_refills (d : CertData) (paras : Array Paragraph)
    (pre post : List Fill) (e : Fill)
    (h : (scan d paras).2.2 = pre ++ e :: post)
    (hLA : e.rule.isLookahead = true) :
    ∀ f ∈ pre, f.idx ≠ e.idx := by
  have h' : (scanAux d paras.size 0 paras []).2.2 = pre ++ e :: post := h
  exact ((scanAux_inv d paras.size 0 paras []).2.2 pre e post h' hLA).2

/-- Document whose impression lookahead fills a paragraph that the date rule
then fills again when the pass reaches it. -/
def parasCE3 : Array Paragraph :=
  #[⟨[{ text := "Impression", fontName := "Arial", fontSize := 11 }]⟩,
    ⟨[{ text := "Date ___ ___", fontName := "Arial", fontSize := 11 }]⟩]

/-- Visit data for the C3 counterexample. -/
def certCE3 : CertData :=
  { dateText := "March 15, 2024", nameWithInfo := "Ana 20/F", address := "Addr",
    history := "hist", diagnosis := "D", remarks := "rem" }

/-- C3 counterexample: paragraph 1 is filled twice in one scan — first by the
impression lookahead, then by the date rule once the pass reaches it — so the
fill-event indices are not pairwise distinct. -/
theorem paragraph_double_fill_counterexample :
    (scan certCE3 parasCE3).2.2 = [⟨1, .impressionLA⟩, ⟨1, .date⟩] ∧
    ¬ ((scan certCE3 parasCE3).2.2.map Fill.idx).Nodup ∧
    paraTextAt (scan certCE3 parasCE3).1 1 = "Date D March 15, 2024" := by
  decide

/-- Document for the C3 witness: a date line, an impression header, and a
blank filled by lookahead after the date fill. -/
def parasW3 : Array Paragraph :=
  #[⟨[{ text := "Date ___", fontName := "Arial", fontSize := 11 }]⟩,
    ⟨[{ text := "Impression", fontName := "Arial", fontSize := 11 }]⟩,
    ⟨[{ text := "x ___ y", fontName := "Arial", fontSize := 11 }]⟩]

/-- Witness for C3: in the scan of `parasW3` the lookahead fill of paragraph
2 follows the date fill of paragraph 0, and its target is indeed fresh. -/
theorem lookahead_fill_never_refills_witness :
    (⟨0, Rule.date⟩ : Fill).idx ≠ (⟨2, Rule.impressionLA⟩ : Fill).idx :=
  lookahead_fill_never_refills certCE3 parasW3 [⟨0, .date⟩] [] ⟨2, .impressionLA⟩
    (by decide) rfl ⟨0, .date⟩ (by decide)

end Clinic
